import Mathlib

/-!
Verification of the cocktail-scraper subsystem (scraper.py and the
translation pass of translate_ingredients.py) of the cocktail-bot
repository.

The Python code is shallowly embedded as follows.

* HTTP traffic is modelled by the HttpOutcome type: a request either
  returns a status code together with a parsed body, or raises (any
  transport, timeout or decoding exception).  The body of a JSON call
  is the value of the relevant key of the response dictionary
  ("drinks" or "ingredients"): an Option around a list, where none
  models a missing or null key and the empty list models an empty
  array (both are falsy in Python).
* The SQLite database is a record of three tables, each a list of rows
  in rowid (i.e. insertion/scan) order.  DELETE keeps the remaining
  rows in order, INSERT appends at the end, INSERT OR REPLACE on a
  TEXT PRIMARY KEY deletes the conflicting row (when the key is
  non-null; SQLite never treats NULL keys as conflicting) and appends
  the new one.  Columns absent from an INSERT column list default to
  NULL.  The created_at timestamp columns play no role in any claim
  and are not modelled.
* The measure column of cocktail_ingredients is modelled as String:
  every INSERT in the repository binds a non-null string to it (the
  scraper inserts (measure or "").strip()).  The position column is
  modelled as Nat, likewise always bound by the single writer.
* The progress ledger is the in-memory ScraperProgress dataclass; its
  save method stamps last_updated with the current time, which the
  operations receive as an explicit argument.
* The raw_json columns hold json.dumps of the fetched record; since
  that serialisation is determined by the record, the model stores the
  record itself in the raw field.
* The file system seen by the image downloader is the list of paths of
  existing files.  Each operation returns, besides its result and new
  state, the number of HTTP requests it issued and (for images) the
  number of rate-limit sleeps it performed.
-/

/-- Outcome of one HTTP request: a status code with a decoded body, or a
raised exception (timeout, connection error, JSON error, ...). -/
inductive HttpOutcome (α : Type) where
  | ok (status : Nat) (body : α)
  | exn
deriving DecidableEq, Repr

/-- Embedding of CocktailScraper._fetch_json: a 200 response yields the
decoded body, any other status or any exception yields None. -/
def fetch_json {α : Type} : HttpOutcome α → Option α
  | .ok status body => if status = 200 then some body else none
  | .exn => none

/-- One record of the "drinks" array of a lookup.php response.  The
strIngredientN / strMeasureN columns (N = 1..15 in the API) are gathered
in the slots list: slot i-1 holds the pair (strIngredient i, strMeasure i),
each None when the key is null or absent. -/
structure Drink where
  idDrink : Option String := none
  strDrink : Option String := none
  strCategory : Option String := none
  strAlcoholic : Option String := none
  strGlass : Option String := none
  strInstructions : Option String := none
  strInstructionsRU : Option String := none
  strInstructionsDE : Option String := none
  strInstructionsFR : Option String := none
  strInstructionsES : Option String := none
  strInstructionsIT : Option String := none
  strDrinkThumb : Option String := none
  strTags : Option String := none
  strVideo : Option String := none
  strIBA : Option String := none
  dateModified : Option String := none
  slots : List (Option String × Option String) := []
deriving DecidableEq, Repr

/-- One record of the "drinks" array of a search.php?f=letter response;
only its idDrink field is read by the enumeration loop. -/
structure SearchDrink where
  idDrink : Option String := none
deriving DecidableEq, Repr

/-- One record of the "drinks" array of a list.php?i=list response; only
its strIngredient1 field is read. -/
structure IngListEntry where
  strIngredient1 : Option String := none
deriving DecidableEq, Repr

/-- One record of the "ingredients" array of a search.php?i=name
response. -/
structure IngredientRec where
  idIngredient : Option String := none
  strIngredient : Option String := none
  strDescription : Option String := none
  strType : Option String := none
  strAlcohol : Option String := none
  strABV : Option String := none
deriving DecidableEq, Repr

/-- One line item gathered by the ingredient loop of download_cocktail:
the stripped ingredient name, the stripped measure (empty when null) and
the 1-based slot index i of the strIngredient-i field it came from. -/
structure LineItem where
  ingredient : String
  measure : String
  position : Nat
deriving DecidableEq, Repr

/-- Leading-whitespace removal on a character list. -/
def dropLeadingWs : List Char → List Char
  | [] => []
  | c :: rest => if c.isWhitespace then dropLeadingWs rest else c :: rest

/-- Embedding of Python str.strip(): whitespace removed from both ends
of the string. -/
def pyStrip (s : String) : String :=
  String.mk ((dropLeadingWs ((dropLeadingWs s.data).reverse)).reverse)

/-- Embedding of the ingredient-gathering loop of download_cocktail
(for i in range(1, 16) over strIngredient-i / strMeasure-i): a slot is
kept exactly when its ingredient is present and non-blank after
stripping; the counter i is the slot index, starting at the given
value. -/
def collectIngredients : Nat → List (Option String × Option String) → List LineItem
  | _, [] => []
  | i, (none, _) :: rest => collectIngredients (i + 1) rest
  | i, (some ing, meas) :: rest =>
    if pyStrip ing = "" then collectIngredients (i + 1) rest
    else ⟨pyStrip ing, pyStrip (meas.getD ""), i⟩ :: collectIngredients (i + 1) rest

/-- Line items of a fetched drink: slots 1..15 scanned in order. -/
def ingredientsOf (d : Drink) : List LineItem :=
  collectIngredients 1 (d.slots.take 15)

/-- Row of the cocktails table (created_at not modelled). -/
structure CocktailRow where
  id : Option String := none
  name : Option String := none
  category : Option String := none
  alcoholic : Option String := none
  glass : Option String := none
  instructions : Option String := none
  instructions_ru : Option String := none
  instructions_de : Option String := none
  instructions_fr : Option String := none
  instructions_es : Option String := none
  instructions_it : Option String := none
  image_url : Option String := none
  image_local_path : Option String := none
  tags : Option String := none
  video_url : Option String := none
  iba : Option String := none
  date_modified : Option String := none
  raw : Drink := {}
deriving DecidableEq, Repr

/-- Row of the cocktail_ingredients table.  The ingredient_ru and
measure_ru columns are written only by the translation pass and are NULL
when the scraper inserts the row. -/
structure IngRow where
  cocktail_id : String
  ingredient : String
  measure : String
  position : Nat
  ingredient_ru : Option String := none
  measure_ru : Option String := none
deriving DecidableEq, Repr

/-- Row of the ingredients table (created_at not modelled). -/
structure IngredientRow where
  id : Option String := none
  name : Option String := none
  description : Option String := none
  type : Option String := none
  alcohol : Option String := none
  abv : Option String := none
  image_url : Option String := none
  image_local_path : Option String := none
  raw : IngredientRec := {}
deriving DecidableEq, Repr

/-- The SQLite database: three tables, rows listed in rowid order. -/
structure DB where
  cocktails : List CocktailRow := []
  cocktail_ingredients : List IngRow := []
  ingredients : List IngredientRow := []
deriving DecidableEq, Repr

/-- The ScraperProgress dataclass (the progress ledger). -/
structure Progress where
  cocktails_downloaded : List String
  ingredients_downloaded : List String
  cocktail_images_downloaded : List String
  ingredient_images_downloaded : List String
  started_at : String
  last_updated : String
deriving DecidableEq, Repr

/-- Fresh ledger built by ScraperProgress.load when no usable file
exists: all four completed-unit lists empty, both timestamps now. -/
def freshProgress (now : String) : Progress :=
  { cocktails_downloaded := []
    ingredients_downloaded := []
    cocktail_images_downloaded := []
    ingredient_images_downloaded := []
    started_at := now
    last_updated := now }

/-- Embedding of ScraperProgress.load.  fileExists says whether the
progress file is present; parsed is some p when opening, reading and
parsing it produced the dataclass p, and none when any exception was
raised on the way (the except branch, which logs a warning).  In both
failure shapes a fresh record is returned. -/
def ScraperProgress_load (fileExists : Bool) (parsed : Option Progress) (now : String) : Progress :=
  if fileExists then
    match parsed with
    | some p => p
    | none => freshProgress now
  else freshProgress now

/-- Whole mutable state of one scraper process: the database, the
in-memory ledger, and the set of files on disk (as a list of paths). -/
structure World where
  db : DB := {}
  progress : Progress := freshProgress ""
  files : List String := []
deriving DecidableEq, Repr

/-- INSERT OR REPLACE INTO cocktails keyed on the id primary key: a
conflicting row (same non-null id) is deleted and the new row appended;
a NULL id never conflicts. -/
def upsertCocktailRow (rows : List CocktailRow) (r : CocktailRow) : List CocktailRow :=
  match r.id with
  | none => rows ++ [r]
  | some i => rows.filter (fun x => x.id ≠ some i) ++ [r]

/-- INSERT OR REPLACE INTO ingredients keyed on the id primary key. -/
def upsertIngredientRow (rows : List IngredientRow) (r : IngredientRow) : List IngredientRow :=
  match r.id with
  | none => rows ++ [r]
  | some i => rows.filter (fun x => x.id ≠ some i) ++ [r]

/-- Cocktails-table row built by download_cocktail from a fetched drink:
the 17 columns of its INSERT column list; image_local_path is not in
that list and therefore becomes NULL on replace. -/
def cocktailRowOf (d : Drink) : CocktailRow :=
  { id := d.idDrink
    name := d.strDrink
    category := d.strCategory
    alcoholic := d.strAlcoholic
    glass := d.strGlass
    instructions := d.strInstructions
    instructions_ru := d.strInstructionsRU
    instructions_de := d.strInstructionsDE
    instructions_fr := d.strInstructionsFR
    instructions_es := d.strInstructionsES
    instructions_it := d.strInstructionsIT
    image_url := d.strDrinkThumb
    image_local_path := none
    tags := d.strTags
    video_url := d.strVideo
    iba := d.strIBA
    date_modified := d.dateModified
    raw := d }

/-- Cocktail_ingredients row inserted by download_cocktail for one
gathered line item. -/
def mkIngRow (cid : String) (it : LineItem) : IngRow :=
  { cocktail_id := cid
    ingredient := it.ingredient
    measure := it.measure
    position := it.position }

/-- Embedding of CocktailScraper.download_cocktail.  out is the outcome
of the lookup.php?i=cid request (consumed only when the id is not yet in
the ledger); now is the wall-clock time stamped by progress.save.
Returns the Python return value, the new world, and the number of JSON
requests issued. -/
def download_cocktail (out : HttpOutcome (Option (List Drink))) (now : String)
    (w : World) (cid : String) : Bool × World × Nat :=
  if cid ∈ w.progress.cocktails_downloaded then (true, w, 0)
  else
    match fetch_json out with
    | none => (false, w, 1)
    | some none => (false, w, 1)
    | some (some []) => (false, w, 1)
    | some (some (d :: _)) =>
      let items := ingredientsOf d
      let db1 : DB := { w.db with cocktails := upsertCocktailRow w.db.cocktails (cocktailRowOf d) }
      let db2 : DB := { db1 with cocktail_ingredients :=
        db1.cocktail_ingredients.filter (fun r => r.cocktail_id ≠ cid) ++ items.map (mkIngRow cid) }
      (true,
        { w with
          db := db2
          progress := { w.progress with
            cocktails_downloaded := w.progress.cocktails_downloaded ++ [cid]
            last_updated := now } },
        1)

/-- Embedding of CocktailScraper.download_ingredient: fetches
search.php?i=name, takes the first record of the "ingredients" array and
upserts it into the ingredients table, keyed on the idIngredient value
of the response. -/
def download_ingredient (out : HttpOutcome (Option (List IngredientRec))) (now : String)
    (w : World) (name : String) : Bool × World × Nat :=
  if name ∈ w.progress.ingredients_downloaded then (true, w, 0)
  else
    match fetch_json out with
    | none => (false, w, 1)
    | some none => (false, w, 1)
    | some (some []) => (false, w, 1)
    | some (some (ing :: _)) =>
      let image_url := "https://www.thecocktaildb.com/images/ingredients/" ++ name ++ "-Medium.png"
      let row : IngredientRow :=
        { id := ing.idIngredient
          name := ing.strIngredient
          description := ing.strDescription
          type := ing.strType
          alcohol := ing.strAlcohol
          abv := ing.strABV
          image_url := some image_url
          image_local_path := none
          raw := ing }
      (true,
        { w with
          db := { w.db with ingredients := upsertIngredientRow w.db.ingredients row }
          progress := { w.progress with
            ingredients_downloaded := w.progress.ingredients_downloaded ++ [name]
            last_updated := now } },
        1)

/-- Embedding of CocktailScraper._download_image.  Returns the Python
return value, the new file set, the number of HTTP requests issued and
the number of rate-limit sleeps performed.  When the destination path
already exists it returns True untouched, before the sleep and the
request.  A 200 response writes the file; any other status or any
exception leaves the file system unchanged and returns False. -/
def download_image (net : String → HttpOutcome Unit) (files : List String)
    (url save_path : String) : Bool × List String × Nat × Nat :=
  if save_path ∈ files then (true, files, 0, 0)
  else
    match net url with
    | .ok 200 _ => (true, files ++ [save_path], 1, 1)
    | .ok _ _ => (false, files, 1, 1)
    | .exn => (false, files, 1, 1)

/-- Destination path used by download_cocktail_image. -/
def cocktailImagePath (cid : String) : String :=
  "data/images/cocktails/" ++ cid ++ ".jpg"

/-- Embedding of CocktailScraper.download_cocktail_image: reads the
stored thumbnail URL of the cocktail row (failing on a missing row or a
null/empty URL), downloads to the deterministic path, and on success
updates the image_local_path column and appends the id to the ledger.
Returns the Python return value, the new world, the number of HTTP
requests and the number of image-delay sleeps. -/
def download_cocktail_image (net : String → HttpOutcome Unit) (now : String)
    (w : World) (cid : String) : Bool × World × Nat × Nat :=
  if cid ∈ w.progress.cocktail_images_downloaded then (true, w, 0, 0)
  else
    match w.db.cocktails.find? (fun r => r.id = some cid) with
    | none => (false, w, 0, 0)
    | some row =>
      match row.image_url with
      | none => (false, w, 0, 0)
      | some u =>
        if u = "" then (false, w, 0, 0)
        else
          let path := cocktailImagePath cid
          let r := download_image net w.files u path
          if r.1 then
            (true,
              { w with
                files := r.2.1
                db := { w.db with cocktails := w.db.cocktails.map (fun x =>
                  if x.id = some cid then { x with image_local_path := some path } else x) }
                progress := { w.progress with
                  cocktail_images_downloaded := w.progress.cocktail_images_downloaded ++ [cid]
                  last_updated := now } },
              r.2.2.1, r.2.2.2)
          else (false, { w with files := r.2.1 }, r.2.2.1, r.2.2.2)

/-- Name sanitisation used for the ingredient image URL. -/
def sanitizeUrlName (name : String) : String :=
  (name.replace " " "%20").replace "/" "-"

/-- Name sanitisation used for the ingredient image file name. -/
def sanitizeFileName (name : String) : String :=
  (name.replace "/" "-").replace " " "_"

/-- Embedding of CocktailScraper.download_ingredient_image. -/
def download_ingredient_image (net : String → HttpOutcome Unit) (now : String)
    (w : World) (name : String) : Bool × World × Nat × Nat :=
  if name ∈ w.progress.ingredient_images_downloaded then (true, w, 0, 0)
  else
    let url := "https://www.thecocktaildb.com/images/ingredients/" ++ sanitizeUrlName name ++ "-Medium.png"
    let path := "data/images/ingredients/" ++ sanitizeFileName name ++ ".png"
    let r := download_image net w.files url path
    if r.1 then
      (true,
        { w with
          files := r.2.1
          db := { w.db with ingredients := w.db.ingredients.map (fun x =>
            if x.name = some name then { x with image_local_path := some path } else x) }
          progress := { w.progress with
            ingredient_images_downloaded := w.progress.ingredient_images_downloaded ++ [name]
            last_updated := now } },
        r.2.2.1, r.2.2.2)
    else (false, { w with files := r.2.1 }, r.2.2.1, r.2.2.2)

/-- The enumeration alphabet, string.ascii_lowercase + string.digits. -/
def lettersList : List Char :=
  "abcdefghijklmnopqrstuvwxyz0123456789".toList

/-- Inner loop of get_all_cocktail_ids: adds the idDrink of every record
of one letter's "drinks" array to the accumulated set, skipping records
whose idDrink is null or empty (falsy). -/
def addDrinkIds (acc : Finset String) (ds : List SearchDrink) : Finset String :=
  ds.foldl
    (fun a d =>
      match d.idDrink with
      | some i => if i = "" then a else insert i a
      | none => a)
    acc

/-- One letter step of get_all_cocktail_ids: issues the
search.php?f=letter request (counted), and folds the ids of a truthy
"drinks" array into the set. -/
def letterStep (search : Char → HttpOutcome (Option (List SearchDrink)))
    (acc : Finset String × Nat) (ch : Char) : Finset String × Nat :=
  (match fetch_json (search ch) with
   | some (some ds) => if ds.isEmpty then acc.1 else addDrinkIds acc.1 ds
   | some none => acc.1
   | none => acc.1,
   acc.2 + 1)

/-- Embedding of CocktailScraper.get_all_cocktail_ids: one search
request per symbol of the alphabet, ids unioned into a set, returned
sorted; also returns the number of requests issued. -/
def get_all_cocktail_ids (search : Char → HttpOutcome (Option (List SearchDrink))) :
    List String × Nat :=
  let r := lettersList.foldl (letterStep search) (∅, 0)
  (r.1.sort (· ≤ ·), r.2)

/-- Embedding of CocktailScraper.get_all_ingredients: a single
list.php?i=list request; on a truthy "drinks" array the truthy
strIngredient1 values are collected and sorted, otherwise the empty
list is returned. -/
def get_all_ingredients (out : HttpOutcome (Option (List IngListEntry))) : List String :=
  match fetch_json out with
  | some (some l) =>
    if l.isEmpty then []
    else
      (l.filterMap (fun e =>
        match e.strIngredient1 with
        | some s => if s = "" then none else some s
        | none => none)).mergeSort (fun a b => a ≤ b)
  | some none => []
  | none => []

/-- Stage 2 of CocktailScraper.run: computes the backlog (discovered ids
not in the ledger) and downloads each in order.  Returns the final
world, the backlog it processed, and the total number of JSON requests
issued. -/
def runCocktailStage (lookup : String → HttpOutcome (Option (List Drink))) (now : String)
    (allIds : List String) (w : World) : World × List String × Nat :=
  let remaining := allIds.filter (fun cid => cid ∉ w.progress.cocktails_downloaded)
  let r := remaining.foldl
    (fun (acc : World × Nat) cid =>
      let s := download_cocktail (lookup cid) now acc.1 cid
      (s.2.1, acc.2 + s.2.2))
    (w, 0)
  (r.1, remaining, r.2)

/-- Stage 3 of CocktailScraper.run: ingredient backlog from a fresh
get_all_ingredients call, then one download_ingredient per backlog
entry.  Returns the final world and the backlog processed. -/
def runIngredientStage (searchIng : String → HttpOutcome (Option (List IngredientRec)))
    (listOut : HttpOutcome (Option (List IngListEntry))) (now : String) (w : World) :
    World × List String :=
  let all := get_all_ingredients listOut
  let remaining := all.filter (fun name => name ∉ w.progress.ingredients_downloaded)
  (remaining.foldl (fun acc name => (download_ingredient (searchIng name) now acc name).2.1) w,
   remaining)

/-- Stage 5 of CocktailScraper.run: ingredient-image backlog over the
same get_all_ingredients universe. -/
def runIngredientImageStage (net : String → HttpOutcome Unit)
    (listOut : HttpOutcome (Option (List IngListEntry))) (now : String) (w : World) :
    World × List String :=
  let all := get_all_ingredients listOut
  let remaining := all.filter (fun name => name ∉ w.progress.ingredient_images_downloaded)
  (remaining.foldl (fun acc name => (download_ingredient_image net now acc name).2.1) w,
   remaining)

/-- Splitting of a character list on a two-character separator a,b:
Python str.split(sep) semantics, scanning left to right and resuming
after each separator occurrence.  Both separators of the exporter
("||" and "::") have this shape. -/
def split2 (a b : Char) : List Char → List (List Char)
  | [] => [[]]
  | [c] => [[c]]
  | c :: d :: rest =>
    if c = a ∧ d = b then [] :: split2 a b rest
    else
      let r := split2 a b (d :: rest)
      (c :: r.headD []) :: r.tail

/-- Joining with a separator: the semantics of SQLite
GROUP_CONCAT(expr, sep) over the scanned rows, and of str.join. -/
def joinSep (sep : List Char) : List (List Char) → List Char
  | [] => []
  | [x] => x
  | x :: y :: rest => x ++ sep ++ joinSep sep (y :: rest)

/-- Line-item rows of the LEFT JOIN for one cocktail row: the
cocktail_ingredients rows whose cocktail_id equals the cocktail's id (a
NULL id matches nothing in SQL), in table scan order. -/
def rowsFor (db : DB) (c : CocktailRow) : List IngRow :=
  match c.id with
  | none => []
  | some cid => db.cocktail_ingredients.filter (fun r => r.cocktail_id = cid)

/-- The ingredients_list column of the export query for one cocktail:
GROUP_CONCAT(ci.ingredient || '::' || COALESCE(ci.measure, ''), '||'),
NULL (none) when the group has no line items. -/
def ingredientsListOf (rows : List IngRow) : Option (List Char) :=
  match rows with
  | [] => none
  | _ => some (joinSep ['|', '|'] (rows.map (fun r => r.ingredient.data ++ [':', ':'] ++ r.measure.data)))

/-- Parsing of one "ingredient::measure" chunk in export_to_json:
i.split("::")[0] is the ingredient and i.split("::")[1] the measure
when "::" occurs in i, otherwise the measure is empty. -/
def parseEntry (i : List Char) : String × String :=
  let ps := split2 ':' ':' i
  (String.mk (ps.headD []), if 2 ≤ ps.length then String.mk (ps.getD 1 []) else "")

/-- Parsing of the ingredients_list string in export_to_json: split on
"||", drop falsy (empty) chunks, parse each chunk. -/
def parseIngredientsList (s : List Char) : List (String × String) :=
  ((split2 '|' '|' s).filter (fun i => ¬ i.isEmpty)).map parseEntry

/-- One element of the cocktails.json array: the cocktail's columns plus
the optional embedded ingredients array of (ingredient, measure) pairs;
none models an absent "ingredients" key (the key is only set when
ingredients_list is truthy). -/
structure ExportedCocktail where
  base : CocktailRow
  ingredients : Option (List (String × String))
deriving DecidableEq, Repr

/-- Export of one cocktail row by export_to_json. -/
def exportCocktail (db : DB) (c : CocktailRow) : ExportedCocktail :=
  { base := c
    ingredients :=
      match ingredientsListOf (rowsFor db c) with
      | none => none
      | some s => if s.isEmpty then none else some (parseIngredientsList s) }

/-- The cocktails.json array produced by export_to_json: one entry per
cocktails row (the GROUP BY c.id groups are the rows themselves, the id
column being the primary key). -/
def export_to_json (db : DB) : List ExportedCocktail :=
  db.cocktails.map (exportCocktail db)

/-- Dictionary lookup translations.get(key, default) over the
translation cache, modelled as an association list. -/
def lookupD (tr : List (String × String)) (key default : String) : String :=
  match tr.find? (fun p => p.1 = key) with
  | some p => p.2
  | none => default

/-- The translated version of one cocktail_ingredients row, as computed
by the update loop of translate_ingredients.main from that row's own
ingredient and measure.  conv stands for the convert_measure
text-normalisation heuristic, which the spec places out of scope; the
loop applies it only to truthy measures. -/
def translateRow (tr : List (String × String)) (conv : String → String) (r : IngRow) : IngRow :=
  { r with
    ingredient_ru := some (lookupD tr r.ingredient r.ingredient)
    measure_ru := some (if r.measure = "" then "" else conv r.measure) }

/-- UPDATE cocktail_ingredients SET ingredient_ru, measure_ru WHERE
cocktail_id = ? AND position = ?: every row matching the key receives
the new values. -/
def ruUpdate (rows : List IngRow) (cid : String) (pos : Nat) (ru mru : String) : List IngRow :=
  rows.map (fun x =>
    if x.cocktail_id = cid ∧ x.position = pos then
      { x with ingredient_ru := some ru, measure_ru := some mru }
    else x)

/-- The database-update loop of translate_ingredients.main: a snapshot
of all rows is fetched, then for each snapshot row one UPDATE keyed on
(cocktail_id, position) writes that row's translation. -/
def translateUpdatePass (tr : List (String × String)) (conv : String → String)
    (rows0 : List IngRow) : List IngRow :=
  rows0.foldl
    (fun rows r =>
      ruUpdate rows r.cocktail_id r.position
        (lookupD tr r.ingredient r.ingredient)
        (if r.measure = "" then "" else conv r.measure))
    rows0

/-- Reading of the specification's position invariant under which the
positions of a drink's line items form the contiguous range 1..N (N the
number of items). -/
def positionsContiguous (d : Drink) : Prop :=
  (ingredientsOf d).map (fun it => it.position) = List.range' 1 (ingredientsOf d).length

/-- The specification's ingredient-record invariant: at most one row of
the ingredients table per distinct ingredient name. -/
def oneRecordPerName (rows : List IngredientRow) : Prop :=
  rows.Pairwise (fun a b => a.name ≠ b.name)

/-- The key invariant the ingredients table actually maintains: at most
one row per distinct non-null external id (the id primary key). -/
def distinctIdKeys (rows : List IngredientRow) : Prop :=
  rows.Pairwise (fun a b => a.id = none ∨ a.id ≠ b.id)

/-- The specification's snapshot round-trip property at one database:
every cocktail row, re-parsed from the export, carries an ingredients
array whose (ingredient, measure) pairs are exactly its
cocktail_ingredients rows in stored (ascending-position) order. -/
def snapshotRoundTrip (db : DB) : Prop :=
  ∀ c ∈ db.cocktails, ∀ cid, c.id = some cid →
    (exportCocktail db c).ingredients =
      some ((db.cocktail_ingredients.filter (fun r => r.cocktail_id = cid)).map
        (fun r => (r.ingredient, r.measure)))

/-! Helper lemmas about the gathered line items. -/

theorem collectIngredients_pos_bounds {l : List (Option String × Option String)} {i : Nat}
    {it : LineItem} (h : it ∈ collectIngredients i l) :
    i ≤ it.position ∧ it.position < i + l.length := by
  induction l generalizing i with
  | nil => simp [collectIngredients] at h
  | cons sl rest ih =>
    obtain ⟨ing?, meas⟩ := sl
    rcases ing? with _ | ing
    · rw [collectIngredients] at h
      have := ih h
      simp only [List.length_cons]
      omega
    · rw [collectIngredients] at h
      by_cases htrim : pyStrip ing = ""
      · rw [if_pos htrim] at h
        have := ih h
        simp only [List.length_cons]
        omega
      · rw [if_neg htrim] at h
        rcases List.mem_cons.mp h with h' | h'
        · subst h'
          simp only [List.length_cons]
          omega
        · have := ih h'
          simp only [List.length_cons]
          omega

theorem collectIngredients_pos_pairwise (l : List (Option String × Option String)) (i : Nat) :
    (collectIngredients i l).Pairwise (fun x y => x.position < y.position) := by
  induction l generalizing i with
  | nil => simp [collectIngredients]
  | cons sl rest ih =>
    obtain ⟨ing?, meas⟩ := sl
    rcases ing? with _ | ing
    · rw [collectIngredients]
      exact ih (i + 1)
    · rw [collectIngredients]
      by_cases htrim : pyStrip ing = ""
      · rw [if_pos htrim]
        exact ih (i + 1)
      · rw [if_neg htrim]
        refine List.pairwise_cons.mpr ⟨fun y hy => ?_, ih (i + 1)⟩
        have := (collectIngredients_pos_bounds hy).1
        simpa using Nat.lt_of_lt_of_le (Nat.lt_succ_self i) this

theorem collectIngredients_slot {l : List (Option String × Option String)} {i : Nat}
    {it : LineItem} (h : it ∈ collectIngredients i l) :
    ∃ ing meas, l[it.position - i]? = some (some ing, meas) ∧ pyStrip ing ≠ "" ∧
      it.ingredient = pyStrip ing ∧ it.measure = pyStrip (meas.getD "") := by
  induction l generalizing i with
  | nil => simp [collectIngredients] at h
  | cons sl rest ih =>
    have step : it ∈ collectIngredients (i + 1) rest →
        ∃ ing meas, (sl :: rest)[it.position - i]? = some (some ing, meas) ∧ pyStrip ing ≠ "" ∧
          it.ingredient = pyStrip ing ∧ it.measure = pyStrip (meas.getD "") := by
      intro h'
      have hge := (collectIngredients_pos_bounds h').1
      obtain ⟨ing, meas, hidx, hne, hin, hme⟩ := ih h'
      refine ⟨ing, meas, ?_, hne, hin, hme⟩
      have harith : it.position - i = (it.position - (i + 1)) + 1 := by omega
      rw [harith]
      simpa using hidx
    obtain ⟨ing?, m⟩ := sl
    rcases ing? with _ | ing
    · rw [collectIngredients] at h
      exact step h
    · rw [collectIngredients] at h
      by_cases htrim : pyStrip ing = ""
      · rw [if_pos htrim] at h
        exact step h
      · rw [if_neg htrim] at h
        rcases List.mem_cons.mp h with h' | h'
        · subst h'
          exact ⟨ing, m, by simp, htrim, rfl, rfl⟩
        · exact step h'

theorem collectIngredients_skips_blank {l : List (Option String × Option String)} {i j : Nat}
    {sl : Option String × Option String} (hj : l[j]? = some sl)
    (hblank : sl.1 = none ∨ ∀ s, sl.1 = some s → pyStrip s = "") :
    ∀ it ∈ collectIngredients i l, it.position ≠ i + j := by
  intro it hit heq
  obtain ⟨ing, meas, hidx, hne, _, _⟩ := collectIngredients_slot hit
  rw [heq, Nat.add_sub_cancel_left, hj, Option.some.injEq] at hidx
  rcases hblank with hb | hb
  · rw [hidx] at hb
    simp at hb
  · exact hne (hb ing (by rw [hidx]))

/-! Helper lemmas for the delete-then-insert of ingredient line items. -/

theorem filter_replace_children (old : List IngRow) (cid : String) (new : List LineItem) :
    ((old.filter (fun r => r.cocktail_id ≠ cid) ++ new.map (mkIngRow cid)).filter
        (fun x => x.cocktail_id = cid) = new.map (mkIngRow cid)) ∧
    ((old.filter (fun r => r.cocktail_id ≠ cid) ++ new.map (mkIngRow cid)).filter
        (fun x => x.cocktail_id ≠ cid) = old.filter (fun x => x.cocktail_id ≠ cid)) := by
  constructor
  · rw [List.filter_append]
    have h1 : (old.filter (fun r => r.cocktail_id ≠ cid)).filter
        (fun x => x.cocktail_id = cid) = [] := by
      refine List.filter_eq_nil_iff.mpr ?_
      intro a ha
      have := (List.mem_filter.mp ha).2
      simp only [decide_not, Bool.not_eq_eq_eq_not, Bool.not_true, decide_eq_false_iff_not] at this
      simp [this]
    have h2 : (new.map (mkIngRow cid)).filter (fun x => x.cocktail_id = cid)
        = new.map (mkIngRow cid) := by
      refine List.filter_eq_self.mpr ?_
      intro x hx
      obtain ⟨it, _, rfl⟩ := List.mem_map.mp hx
      simp [mkIngRow]
    rw [h1, h2, List.nil_append]
  · rw [List.filter_append]
    have h1 : (old.filter (fun r => r.cocktail_id ≠ cid)).filter
        (fun x => x.cocktail_id ≠ cid) = old.filter (fun x => x.cocktail_id ≠ cid) := by
      refine List.filter_eq_self.mpr ?_
      intro a ha
      exact (List.mem_filter.mp ha).2
    have h2 : (new.map (mkIngRow cid)).filter (fun x => x.cocktail_id ≠ cid) = [] := by
      refine List.filter_eq_nil_iff.mpr ?_
      intro x hx
      obtain ⟨it, _, rfl⟩ := List.mem_map.mp hx
      simp [mkIngRow]
    rw [h1, h2, List.append_nil]

theorem mkIngRow_map_nodup (cid : String) (d : Drink) :
    ((ingredientsOf d).map (mkIngRow cid)).Nodup := by
  have hp := collectIngredients_pos_pairwise (d.slots.take 15) 1
  have : (ingredientsOf d).Pairwise (fun x y => mkIngRow cid x ≠ mkIngRow cid y) := by
    refine List.Pairwise.imp ?_ hp
    intro x y hlt heq
    have := congrArg IngRow.position heq
    simp only [mkIngRow] at this
    omega
  exact List.Pairwise.map (mkIngRow cid) (fun a b h => h) this

theorem download_cocktail_success (out : HttpOutcome (Option (List Drink))) (now : String)
    (w : World) (cid : String) (d : Drink) (ds : List Drink)
    (hnot : cid ∉ w.progress.cocktails_downloaded)
    (hfetch : fetch_json out = some (some (d :: ds))) :
    download_cocktail out now w cid =
      (true,
        { w with
          db :=
            { w.db with
              cocktails := upsertCocktailRow w.db.cocktails (cocktailRowOf d)
              cocktail_ingredients :=
                w.db.cocktail_ingredients.filter (fun r => r.cocktail_id ≠ cid) ++
                  (ingredientsOf d).map (mkIngRow cid) }
          progress := { w.progress with
            cocktails_downloaded := w.progress.cocktails_downloaded ++ [cid]
            last_updated := now } },
        1) := by
  rw [download_cocktail, if_neg hnot, hfetch]

/-- C1: when download_cocktail actually performs a download (the id is
not yet in the ledger and the fetched record is present), the
cocktail_ingredients rows for that id afterwards are exactly the line
items of the newly fetched record — the rows of every earlier download
of the same id are deleted first — with no duplicate rows; rows of other
cocktails are untouched.  Hence a second (non-skipped) download with a
different ingredient count leaves exactly the new set. -/
theorem claim_C1_replace_ingredients (out : HttpOutcome (Option (List Drink))) (now : String)
    (w : World) (cid : String) (d : Drink) (ds : List Drink)
    (hnot : cid ∉ w.progress.cocktails_downloaded)
    (hfetch : fetch_json out = some (some (d :: ds))) :
    (download_cocktail out now w cid).1 = true ∧
    (download_cocktail out now w cid).2.1.db.cocktail_ingredients.filter
        (fun x => x.cocktail_id = cid) = (ingredientsOf d).map (mkIngRow cid) ∧
    (download_cocktail out now w cid).2.1.db.cocktail_ingredients.filter
        (fun x => x.cocktail_id ≠ cid) =
      w.db.cocktail_ingredients.filter (fun x => x.cocktail_id ≠ cid) ∧
    ((download_cocktail out now w cid).2.1.db.cocktail_ingredients.filter
        (fun x => x.cocktail_id = cid)).Nodup := by
  rw [download_cocktail_success out now w cid d ds hnot hfetch]
  obtain ⟨hsame, hother⟩ := filter_replace_children w.db.cocktail_ingredients cid (ingredientsOf d)
  refine ⟨rfl, hsame, hother, ?_⟩
  rw [hsame]
  exact mkIngRow_map_nodup cid d

/-- Fetched record used in the C1 witness: cocktail 11007 with two line
items. -/
def c1drink : Drink :=
  { idDrink := some "11007"
    strDrink := some "Margarita"
    slots := [(some "Tequila", some "1 1/2 oz "), (some "Triple sec", some "1/2 oz")] }

/-- Store used in the C1 witness: three line items of an earlier
download of 11007 (a different ingredient count) plus a foreign row. -/
def c1world : World :=
  { db := { cocktail_ingredients :=
      [⟨"11007", "Tequila", "1 oz", 1, none, none⟩,
       ⟨"11007", "Salt", "", 2, none, none⟩,
       ⟨"11007", "Lime", "1", 3, none, none⟩,
       ⟨"11008", "Vodka", "2 oz", 1, none, none⟩] }
    progress := freshProgress "t0"
    files := [] }

/-- Concrete instance of C1: redownloading 11007 (after a ledger reset)
leaves exactly the two new line items for it. -/
theorem claim_C1_replace_ingredients_witness :
    ("11007" ∉ c1world.progress.cocktails_downloaded ∧
      fetch_json (HttpOutcome.ok 200 (some [c1drink])) = some (some [c1drink])) ∧
    (download_cocktail (HttpOutcome.ok 200 (some [c1drink])) "t1" c1world
        "11007").2.1.db.cocktail_ingredients.filter
          (fun x => x.cocktail_id = "11007") =
      (ingredientsOf c1drink).map (mkIngRow "11007") :=
  ⟨⟨by decide, rfl⟩,
    (claim_C1_replace_ingredients (HttpOutcome.ok 200 (some [c1drink])) "t1" c1world "11007"
      c1drink [] (by decide) rfl).2.1⟩

/-! Helper lemmas for stage 2 of the pipeline. -/

theorem length_filter_prop_add {α : Type} (l : List α) (p : α → Prop) [DecidablePred p] :
    (l.filter (fun a => p a)).length + (l.filter (fun a => ¬ p a)).length = l.length := by
  induction l with
  | nil => simp
  | cons a l ih =>
    simp only [List.filter_cons, decide_not] at ih ⊢
    by_cases h : p a <;> simp [h] <;> omega

theorem cocktailStage_fold (lookup : String → HttpOutcome (Option (List Drink))) (now : String) :
    ∀ (l : List String) (w : World) (n : Nat),
      l.Nodup →
      (∀ cid ∈ l, cid ∉ w.progress.cocktails_downloaded) →
      (∀ cid ∈ l, ∃ d ds, fetch_json (lookup cid) = some (some (d :: ds))) →
      ((l.foldl
          (fun (acc : World × Nat) cid =>
            let s := download_cocktail (lookup cid) now acc.1 cid
            (s.2.1, acc.2 + s.2.2))
          (w, n)).1.progress.cocktails_downloaded
        = w.progress.cocktails_downloaded ++ l) ∧
      ((l.foldl
          (fun (acc : World × Nat) cid =>
            let s := download_cocktail (lookup cid) now acc.1 cid
            (s.2.1, acc.2 + s.2.2))
          (w, n)).2 = n + l.length) := by
  intro l
  induction l with
  | nil => intro w n _ _ _; simp
  | cons cid rest ih =>
    intro w n hnd hmem hok
    obtain ⟨d, ds, hf⟩ := hok cid (List.mem_cons_self cid rest)
    rw [List.foldl_cons]
    have hdl := download_cocktail_success (lookup cid) now w cid d ds
      (hmem cid (List.mem_cons_self cid rest)) hf
    simp only [hdl]
    have hrest := ih
      { w with
        db :=
          { w.db with
            cocktails := upsertCocktailRow w.db.cocktails (cocktailRowOf d)
            cocktail_ingredients :=
              w.db.cocktail_ingredients.filter (fun r => r.cocktail_id ≠ cid) ++
                (ingredientsOf d).map (mkIngRow cid) }
        progress := { w.progress with
          cocktails_downloaded := w.progress.cocktails_downloaded ++ [cid]
          last_updated := now } }
      (n + 1)
      (List.Nodup.of_cons hnd)
      (by
        intro c hc hin
        rcases List.mem_append.mp hin with h' | h'
        · exact hmem c (List.mem_cons_of_mem cid hc) h'
        · have : c = cid := by simpa using h'
          subst this
          exact (List.rel_of_pairwise_cons hnd hc) rfl)
      (fun c hc => hok c (List.mem_cons_of_mem cid hc))
    refine ⟨?_, ?_⟩
    · rw [hrest.1]
      simp
    · rw [hrest.2]
      simp only [List.length_cons]
      omega

/-- C2: with N of the M discovered ids already in the ledger, stage 2 of
the pipeline processes exactly the remaining M−N ids, issues exactly one
lookup request per remaining id (M−N in total, assuming each remaining
id fetches successfully), and appends exactly those ids to the ledger;
an id already in the ledger makes download_cocktail return success with
zero requests and a completely unchanged world. -/
theorem claim_C2_resumability (lookup : String → HttpOutcome (Option (List Drink)))
    (now : String) (allIds : List String) (w : World)
    (hnd : allIds.Nodup)
    (hok : ∀ cid ∈ allIds, cid ∉ w.progress.cocktails_downloaded →
      ∃ d ds, fetch_json (lookup cid) = some (some (d :: ds))) :
    (runCocktailStage lookup now allIds w).2.1 =
      allIds.filter (fun cid => cid ∉ w.progress.cocktails_downloaded) ∧
    (runCocktailStage lookup now allIds w).2.1.length =
      allIds.length - (allIds.filter (fun cid => cid ∈ w.progress.cocktails_downloaded)).length ∧
    (runCocktailStage lookup now allIds w).2.2 =
      (runCocktailStage lookup now allIds w).2.1.length ∧
    (runCocktailStage lookup now allIds w).1.progress.cocktails_downloaded =
      w.progress.cocktails_downloaded ++ (runCocktailStage lookup now allIds w).2.1 ∧
    (∀ cid ∈ w.progress.cocktails_downloaded,
      download_cocktail (lookup cid) now w cid = (true, w, 0)) := by
  have hrem : (runCocktailStage lookup now allIds w).2.1 =
      allIds.filter (fun cid => cid ∉ w.progress.cocktails_downloaded) := rfl
  have hsub : ∀ cid ∈ allIds.filter (fun cid => cid ∉ w.progress.cocktails_downloaded),
      cid ∉ w.progress.cocktails_downloaded := by
    intro cid hc
    have := (List.mem_filter.mp hc).2
    simpa using this
  have hfold := cocktailStage_fold lookup now
    (allIds.filter (fun cid => cid ∉ w.progress.cocktails_downloaded)) w 0
    (List.Nodup.filter _ hnd)
    hsub
    (by
      intro cid hc
      exact hok cid (List.mem_filter.mp hc).1 (hsub cid hc))
  refine ⟨hrem, ?_, ?_, ?_, ?_⟩
  · rw [hrem]
    have := length_filter_prop_add allIds (fun cid => cid ∈ w.progress.cocktails_downloaded)
    omega
  · rw [hrem]
    exact (hfold.2).trans (by simp)
  · rw [hrem]
    exact hfold.1
  · intro cid hc
    rw [download_cocktail, if_pos hc]

/-- Lookup responses used in the C2 witness. -/
def c2lookup : String → HttpOutcome (Option (List Drink)) :=
  fun cid => HttpOutcome.ok 200 (some [{ idDrink := some cid }])

/-- World used in the C2 witness: one of the three discovered ids is
already in the ledger. -/
def c2world : World :=
  { progress := { freshProgress "t0" with cocktails_downloaded := ["2"] } }

/-- Concrete instance of C2: of the discovered ids 1, 2, 3 with id 2
already done, stage 2 appends exactly the backlog to the ledger. -/
theorem claim_C2_resumability_witness :
    (["1", "2", "3"].Nodup ∧
      ∀ cid ∈ ["1", "2", "3"], cid ∉ c2world.progress.cocktails_downloaded →
        ∃ d ds, fetch_json (c2lookup cid) = some (some (d :: ds))) ∧
    (runCocktailStage c2lookup "t1" ["1", "2", "3"] c2world).1.progress.cocktails_downloaded =
      c2world.progress.cocktails_downloaded ++
        (runCocktailStage c2lookup "t1" ["1", "2", "3"] c2world).2.1 :=
  ⟨⟨by decide, fun cid _ _ => ⟨{ idDrink := some cid }, [], rfl⟩⟩,
    (claim_C2_resumability c2lookup "t1" ["1", "2", "3"] c2world (by decide)
      (fun cid _ _ => ⟨{ idDrink := some cid }, [], rfl⟩)).2.2.2.1⟩

/-- C5: when the destination file of a cocktail image already exists on
disk (and the image unit actually runs: not yet in the ledger, stored
row found with a truthy thumbnail URL), the binary fetch returns success
with zero network requests and zero rate-limit sleeps, and the calling
stage still sets the row's image_local_path column and appends the id to
the ledger. -/
theorem claim_C5_image_skip_on_exists (net : String → HttpOutcome Unit) (now : String)
    (w : World) (cid : String) (row : CocktailRow) (u : String)
    (hnot : cid ∉ w.progress.cocktail_images_downloaded)
    (hfind : w.db.cocktails.find? (fun r => r.id = some cid) = some row)
    (hurl : row.image_url = some u) (hu : u ≠ "")
    (hfile : cocktailImagePath cid ∈ w.files) :
    download_image net w.files u (cocktailImagePath cid) = (true, w.files, 0, 0) ∧
    (download_cocktail_image net now w cid).1 = true ∧
    (download_cocktail_image net now w cid).2.2 = (0, 0) ∧
    (download_cocktail_image net now w cid).2.1.files = w.files ∧
    (download_cocktail_image net now w cid).2.1.db.cocktails =
      w.db.cocktails.map (fun x =>
        if x.id = some cid then { x with image_local_path := some (cocktailImagePath cid) }
        else x) ∧
    (download_cocktail_image net now w cid).2.1.progress.cocktail_images_downloaded =
      w.progress.cocktail_images_downloaded ++ [cid] := by
  have hdi : download_image net w.files u (cocktailImagePath cid) = (true, w.files, 0, 0) := by
    rw [download_image, if_pos hfile]
  have hmain : download_cocktail_image net now w cid =
      (true,
        { w with
          files := w.files
          db := { w.db with cocktails := w.db.cocktails.map (fun x =>
            if x.id = some cid then { x with image_local_path := some (cocktailImagePath cid) }
            else x) }
          progress := { w.progress with
            cocktail_images_downloaded := w.progress.cocktail_images_downloaded ++ [cid]
            last_updated := now } },
        0, 0) := by
    rw [download_cocktail_image, if_neg hnot, hfind]
    simp only [hurl, hu, if_neg, hdi]
    simp
  exact ⟨hdi, by rw [hmain], by rw [hmain], by rw [hmain], by rw [hmain], by rw [hmain]⟩

/-- Stored cocktail row used in the C5 witness. -/
def c5row : CocktailRow :=
  { id := some "11007"
    name := some "Margarita"
    image_url := some "https://example.org/m.jpg" }

/-- World used in the C5 witness: cocktail 11007 stored with a thumbnail
URL, its image file already on disk, ledger empty. -/
def c5world : World :=
  { db := { cocktails := [c5row] }
    progress := freshProgress "t0"
    files := [cocktailImagePath "11007"] }

/-- Network used in the C5 witness: every request raises, which shows
that the skip path consults the network not at all. -/
def c5net : String → HttpOutcome Unit := fun _ => HttpOutcome.exn

/-- Concrete instance of C5. -/
theorem claim_C5_image_skip_on_exists_witness :
    ("11007" ∉ c5world.progress.cocktail_images_downloaded ∧
      c5world.db.cocktails.find? (fun r => r.id = some "11007") = some c5row ∧
      cocktailImagePath "11007" ∈ c5world.files) ∧
    (download_cocktail_image c5net "t1" c5world "11007").1 = true ∧
    (download_cocktail_image c5net "t1" c5world "11007").2.2 = (0, 0) ∧
    (download_cocktail_image c5net "t1" c5world "11007").2.1.progress.cocktail_images_downloaded =
      c5world.progress.cocktail_images_downloaded ++ ["11007"] := by
  have h := claim_C5_image_skip_on_exists c5net "t1" c5world "11007" c5row
    "https://example.org/m.jpg" (by decide) (by decide) rfl (by decide) (by decide)
  exact ⟨⟨by decide, by decide, by decide⟩, h.2.1, h.2.2.1, h.2.2.2.2.2⟩

/-- C7: a fetch ending in a non-200 status or in a raised transport or
timeout exception makes the fetcher return its failure sentinel instead
of raising (None for JSON fetches, False for binary fetches), and the
calling download operation then returns failure with the record store,
the ledger and the file system left exactly unchanged. -/
theorem claim_C7_failure_sentinels (status : Nat) (body : Option (List Drink))
    (out : HttpOutcome (Option (List Drink))) (now : String) (w : World) (cid : String)
    (net : String → HttpOutcome Unit) (files : List String) (u p : String)
    (hs : status ≠ 200)
    (hout : fetch_json out = none)
    (hcid : cid ∉ w.progress.cocktails_downloaded)
    (hp : p ∉ files)
    (hnet : ∀ b, net u ≠ HttpOutcome.ok 200 b) :
    fetch_json (HttpOutcome.ok status body) = none ∧
    fetch_json (HttpOutcome.exn : HttpOutcome (Option (List Drink))) = none ∧
    download_cocktail out now w cid = (false, w, 1) ∧
    download_image net files u p = (false, files, 1, 1) := by
  refine ⟨by simp [fetch_json, hs], rfl, ?_, ?_⟩
  · rw [download_cocktail, if_neg hcid, hout]
  · rw [download_image, if_neg hp]
    split
    · rename_i b heq
      exact absurd heq (hnet b)
    · rfl
    · rfl

/-- Concrete instance of C7: a 404 lookup and a timed-out image get. -/
theorem claim_C7_failure_sentinels_witness :
    ((404 : Nat) ≠ 200 ∧
      fetch_json (HttpOutcome.ok 404 (some ([] : List Drink))) = none ∧
      "11007" ∉ (freshProgress "t0").cocktails_downloaded) ∧
    download_cocktail (HttpOutcome.ok 404 (some ([] : List Drink))) "t1"
      { db := {}, progress := freshProgress "t0", files := [] } "11007" =
      (false, { db := {}, progress := freshProgress "t0", files := [] }, 1) ∧
    download_image (fun _ => HttpOutcome.exn) [] "u" "p" = (false, [], 1, 1) := by
  have h := claim_C7_failure_sentinels 404 (some []) (HttpOutcome.ok 404 (some []))
    "t1" { db := {}, progress := freshProgress "t0", files := [] } "11007"
    (fun _ => HttpOutcome.exn) [] "u" "p"
    (by decide) rfl (by decide) (by decide) (fun b => by simp)
  exact ⟨⟨by decide, rfl, by decide⟩, h.2.2.1, h.2.2.2⟩

/-- C9: when the ledger file exists but loading it raises (any parse or
read error), ScraperProgress.load returns a fresh record whose four
completed-unit lists are all empty, so every discovered id is again in
the next run's backlog. -/
theorem claim_C9_corrupt_ledger_resets (parsed : Option Progress) (now : String)
    (hbad : parsed = none) :
    ScraperProgress_load true parsed now = freshProgress now ∧
    (ScraperProgress_load true parsed now).cocktails_downloaded = [] ∧
    (ScraperProgress_load true parsed now).ingredients_downloaded = [] ∧
    (ScraperProgress_load true parsed now).cocktail_images_downloaded = [] ∧
    (ScraperProgress_load true parsed now).ingredient_images_downloaded = [] ∧
    ∀ allIds : List String,
      allIds.filter
        (fun cid => cid ∉ (ScraperProgress_load true parsed now).cocktails_downloaded) = allIds := by
  subst hbad
  refine ⟨rfl, rfl, rfl, rfl, rfl, ?_⟩
  intro allIds
  refine List.filter_eq_self.mpr ?_
  intro a _
  simp [ScraperProgress_load, freshProgress]

/-- Concrete instance of C9. -/
theorem claim_C9_corrupt_ledger_resets_witness :
    ((none : Option Progress) = none) ∧
    ScraperProgress_load true none "t0" = freshProgress "t0" ∧
    ["11007", "11008"].filter
      (fun cid => cid ∉ (ScraperProgress_load true none "t0").cocktails_downloaded) =
      ["11007", "11008"] :=
  ⟨rfl,
    (claim_C9_corrupt_ledger_resets none "t0" rfl).1,
    (claim_C9_corrupt_ledger_resets none "t0" rfl).2.2.2.2.2 ["11007", "11008"]⟩

/-- C10: when the single ingredient-listing call fails, or its response
has no truthy drinks array, get_all_ingredients returns the empty list
(no raise, no retry), and both the ingredient stage and the
ingredient-image stage of the run process zero units and leave the world
unchanged. -/
theorem claim_C10_ingredient_list_failure
    (listOut : HttpOutcome (Option (List IngListEntry)))
    (searchIng : String → HttpOutcome (Option (List IngredientRec)))
    (net : String → HttpOutcome Unit) (now : String) (w : World)
    (hbad : fetch_json listOut = none ∨ fetch_json listOut = some none ∨
      fetch_json listOut = some (some ([] : List IngListEntry))) :
    get_all_ingredients listOut = [] ∧
    runIngredientStage searchIng listOut now w = (w, []) ∧
    runIngredientImageStage net listOut now w = (w, []) := by
  have h0 : get_all_ingredients listOut = [] := by
    rcases hbad with h | h | h <;> simp [get_all_ingredients, h]
  refine ⟨h0, ?_, ?_⟩
  · rw [runIngredientStage]
    simp [h0]
  · rw [runIngredientImageStage]
    simp [h0]

/-- Concrete instance of C10: the listing request times out. -/
theorem claim_C10_ingredient_list_failure_witness :
    (fetch_json (HttpOutcome.exn : HttpOutcome (Option (List IngListEntry))) = none) ∧
    get_all_ingredients (HttpOutcome.exn : HttpOutcome (Option (List IngListEntry))) = [] ∧
    runIngredientStage (fun _ => HttpOutcome.exn) HttpOutcome.exn "t1"
      { db := {}, progress := freshProgress "t0", files := [] } =
      ({ db := {}, progress := freshProgress "t0", files := [] }, []) :=
  ⟨rfl,
    (claim_C10_ingredient_list_failure HttpOutcome.exn (fun _ => HttpOutcome.exn)
      (fun _ => HttpOutcome.exn) "t1"
      { db := {}, progress := freshProgress "t0", files := [] } (Or.inl rfl)).1,
    (claim_C10_ingredient_list_failure HttpOutcome.exn (fun _ => HttpOutcome.exn)
      (fun _ => HttpOutcome.exn) "t1"
      { db := {}, progress := freshProgress "t0", files := [] } (Or.inl rfl)).2.1⟩

/-! Helper lemmas for the letter-by-letter enumeration. -/

theorem addDrinkIds_mono {ds : List SearchDrink} :
    ∀ {acc : Finset String} {x : String}, x ∈ acc → x ∈ addDrinkIds acc ds := by
  induction ds with
  | nil => intro acc x h; exact h
  | cons d rest ih =>
    intro acc x h
    rw [addDrinkIds, List.foldl_cons]
    refine ih ?_
    rcases d.idDrink with _ | i
    · simpa using h
    · by_cases hi : i = "" <;> simp [hi, h]

theorem addDrinkIds_mem {ds : List SearchDrink} {d : SearchDrink} {x : String}
    (hd : d ∈ ds) (hid : d.idDrink = some x) (hx : x ≠ "") :
    ∀ {acc : Finset String}, x ∈ addDrinkIds acc ds := by
  induction ds with
  | nil => simp at hd
  | cons e rest ih =>
    intro acc
    rw [addDrinkIds, List.foldl_cons]
    rcases List.mem_cons.mp hd with h | h
    · subst h
      refine addDrinkIds_mono ?_
      simp [hid, hx]
    · exact ih h

theorem lettersFold_mono (search : Char → HttpOutcome (Option (List SearchDrink))) :
    ∀ (l : List Char) (acc : Finset String × Nat) (x : String),
      x ∈ acc.1 → x ∈ (l.foldl (letterStep search) acc).1 := by
  intro l
  induction l with
  | nil => intro acc x h; exact h
  | cons ch rest ih =>
    intro acc x h
    rw [List.foldl_cons]
    refine ih _ x ?_
    rw [letterStep]
    rcases fetch_json (search ch) with _ | (_ | ds)
    · exact h
    · exact h
    · by_cases he : ds.isEmpty <;> simp [he, h, addDrinkIds_mono h]

theorem lettersFold_mem (search : Char → HttpOutcome (Option (List SearchDrink)))
    {c : Char} {ds : List SearchDrink} {d : SearchDrink} {x : String}
    (hresp : fetch_json (search c) = some (some ds)) (hne : ds.isEmpty = false)
    (hd : d ∈ ds) (hid : d.idDrink = some x) (hx : x ≠ "") :
    ∀ (l : List Char) (acc : Finset String × Nat), c ∈ l →
      x ∈ (l.foldl (letterStep search) acc).1 := by
  intro l
  induction l with
  | nil => intro acc h; simp at h
  | cons ch rest ih =>
    intro acc hmem
    rw [List.foldl_cons]
    rcases List.mem_cons.mp hmem with h | h
    · subst h
      refine lettersFold_mono search rest _ x ?_
      rw [letterStep, hresp]
      simp only [hne, Bool.false_eq_true, if_false]
      exact addDrinkIds_mem hd hid hx
    · exact ih _ h

theorem lettersFold_count (search : Char → HttpOutcome (Option (List SearchDrink))) :
    ∀ (l : List Char) (acc : Finset String × Nat),
      (l.foldl (letterStep search) acc).2 = acc.2 + l.length := by
  intro l
  induction l with
  | nil => intro acc; simp
  | cons ch rest ih =>
    intro acc
    rw [List.foldl_cons, ih]
    simp only [List.length_cons]
    rw [letterStep]
    omega

/-- C6: get_all_cocktail_ids issues exactly one search request per
symbol of the 36-symbol alphabet a..z, 0..9, and returns a sorted,
duplicate-free list of ids: if the searches of two letters both return
the id x, the result contains x exactly once. -/
theorem claim_C6_enumeration_dedup (search : Char → HttpOutcome (Option (List SearchDrink)))
    (c1 c2 : Char) (ds1 ds2 : List SearchDrink) (d1 d2 : SearchDrink) (x : String)
    (hc1 : c1 ∈ lettersList) (hc2 : c2 ∈ lettersList)
    (hresp1 : fetch_json (search c1) = some (some ds1))
    (hresp2 : fetch_json (search c2) = some (some ds2))
    (hne1 : ds1.isEmpty = false) (hne2 : ds2.isEmpty = false)
    (hd1 : d1 ∈ ds1) (hd2 : d2 ∈ ds2)
    (hid1 : d1.idDrink = some x) (hid2 : d2.idDrink = some x) (hx : x ≠ "") :
    (get_all_cocktail_ids search).2 = 36 ∧
    (get_all_cocktail_ids search).1.Sorted (· ≤ ·) ∧
    (get_all_cocktail_ids search).1.Nodup ∧
    (get_all_cocktail_ids search).1.count x = 1 := by
  refine ⟨?_, Finset.sort_sorted _ _, Finset.sort_nodup _ _, ?_⟩
  · show (lettersList.foldl (letterStep search) (∅, 0)).2 = 36
    rw [lettersFold_count]
    rfl
  · have hmem : x ∈ (lettersList.foldl (letterStep search) (∅, 0)).1 :=
      lettersFold_mem search hresp1 hne1 hd1 hid1 hx lettersList (∅, 0) hc1
    have hsortmem : x ∈ (get_all_cocktail_ids search).1 := by
      show x ∈ Finset.sort _ _
      rw [Finset.mem_sort]
      exact hmem
    exact List.count_eq_one_of_mem (Finset.sort_nodup _ _) hsortmem

/-- Search responses used in the C6 witness: the letters a and b both
return cocktail id X, every other letter returns an empty body. -/
def c6search : Char → HttpOutcome (Option (List SearchDrink)) :=
  fun ch =>
    if ch = 'a' ∨ ch = 'b' then HttpOutcome.ok 200 (some [{ idDrink := some "X" }])
    else HttpOutcome.ok 200 none

/-- Concrete instance of C6: both overlapping letters contribute X, the
discovered list contains X exactly once and 36 requests are made. -/
theorem claim_C6_enumeration_dedup_witness :
    ('a' ∈ lettersList ∧ 'b' ∈ lettersList ∧
      fetch_json (c6search 'a') = some (some [({ idDrink := some "X" } : SearchDrink)]) ∧
      fetch_json (c6search 'b') = some (some [({ idDrink := some "X" } : SearchDrink)])) ∧
    (get_all_cocktail_ids c6search).2 = 36 ∧
    (get_all_cocktail_ids c6search).1.count "X" = 1 := by
  have h := claim_C6_enumeration_dedup c6search 'a' 'b'
    [{ idDrink := some "X" }] [{ idDrink := some "X" }]
    { idDrink := some "X" } { idDrink := some "X" } "X"
    (by decide) (by decide) (by decide) (by decide) rfl rfl
    (List.mem_singleton.mpr rfl) (List.mem_singleton.mpr rfl) rfl rfl (by decide)
  exact ⟨⟨by decide, by decide, by decide, by decide⟩, h.1, h.2.2.2⟩

/-! C4: the ingredients table is keyed by the response's external id. -/

theorem upsertIngredientRow_distinctIdKeys {rows : List IngredientRow} {r : IngredientRow}
    (h : distinctIdKeys rows) : distinctIdKeys (upsertIngredientRow rows r) := by
  rw [upsertIngredientRow]
  rcases hr : r.id with _ | i
  · refine List.pairwise_append.mpr ⟨h, List.pairwise_singleton _ _, ?_⟩
    intro a _ b hb
    have hb' : b = r := by simpa using hb
    subst hb'
    rcases ha : a.id with _ | j
    · exact Or.inl rfl
    · refine Or.inr ?_
      rw [hr]
      simp
  · refine List.pairwise_append.mpr ⟨h.sublist (List.filter_sublist rows),
      List.pairwise_singleton _ _, ?_⟩
    intro a ha b hb
    have hb' : b = r := by simpa using hb
    subst hb'
    have := (List.mem_filter.mp ha).2
    refine Or.inr ?_
    rw [hr]
    simpa using this

/-- C4 (amended): ingredient records are keyed by the external id of the
fetched record (the id primary key of the ingredients table), and every
download_ingredient call preserves the invariant that the table holds at
most one record per distinct non-null external id.  Uniqueness per
ingredient name is not maintained by the code (see the
counterexample). -/
theorem claim_C4_keyed_by_external_id (out : HttpOutcome (Option (List IngredientRec)))
    (now : String) (w : World) (name : String)
    (h : distinctIdKeys w.db.ingredients) :
    distinctIdKeys (download_ingredient out now w name).2.1.db.ingredients := by
  rw [download_ingredient]
  by_cases hmem : name ∈ w.progress.ingredients_downloaded
  · rw [if_pos hmem]
    exact h
  · rw [if_neg hmem]
    rcases fetch_json out with _ | (_ | (_ | ⟨ing, rest⟩))
    · exact h
    · exact h
    · exact h
    · exact upsertIngredientRow_distinctIdKeys h

/-- Concrete instance of the amended C4. -/
theorem claim_C4_keyed_by_external_id_witness :
    distinctIdKeys ({ db := {}, progress := freshProgress "t0", files := [] } : World).db.ingredients ∧
    distinctIdKeys (download_ingredient
      (HttpOutcome.ok 200 (some [{ idIngredient := some "1", strIngredient := some "Vodka" }]))
      "t1" { db := {}, progress := freshProgress "t0", files := [] }
      "Vodka").2.1.db.ingredients :=
  ⟨by simp [distinctIdKeys],
    claim_C4_keyed_by_external_id
      (HttpOutcome.ok 200 (some [{ idIngredient := some "1", strIngredient := some "Vodka" }]))
      "t1" { db := {}, progress := freshProgress "t0", files := [] } "Vodka"
      (by simp [distinctIdKeys])⟩

/-- Ingredient-search response used in the C4 counterexample: the lookup
of name A answers with external id 1 and display name X. -/
def c4resp1 : HttpOutcome (Option (List IngredientRec)) :=
  HttpOutcome.ok 200 (some [{ idIngredient := some "1", strIngredient := some "X" }])

/-- Second response of the C4 counterexample: the lookup of name B
answers with a different external id but the same display name X. -/
def c4resp2 : HttpOutcome (Option (List IngredientRec)) :=
  HttpOutcome.ok 200 (some [{ idIngredient := some "2", strIngredient := some "X" }])

/-- Counterexample to C4 as stated: starting from an empty table (which
satisfies one-record-per-name), downloading ingredient names A and B,
whose responses carry distinct external ids but the same name X, leaves
two rows named X — the insert-or-replace key is the external id of the
response, not the ingredient name, so no sequence-invariant of
one-record-per-name holds. -/
theorem claim_C4_counterexample :
    oneRecordPerName ({ db := {}, progress := freshProgress "t0", files := [] } : World).db.ingredients ∧
    ¬ oneRecordPerName (download_ingredient c4resp2 "t2"
        (download_ingredient c4resp1 "t1"
          { db := {}, progress := freshProgress "t0", files := [] } "A").2.1
        "B").2.1.db.ingredients := by
  constructor
  · simp [oneRecordPerName]
  · unfold oneRecordPerName
    decide

/-! C8: position keying of line items and the translation join. -/

theorem eq_of_sameKey {rows : List IngRow}
    (h : rows.Pairwise (fun a b => a.cocktail_id ≠ b.cocktail_id ∨ a.position ≠ b.position)) :
    ∀ x ∈ rows, ∀ r ∈ rows, x.cocktail_id = r.cocktail_id → x.position = r.position → x = r := by
  induction rows with
  | nil => intro x hx; simp at hx
  | cons a rest ih =>
    intro x hx r hr h1 h2
    rcases List.mem_cons.mp hx with hx' | hx' <;> rcases List.mem_cons.mp hr with hr' | hr'
    · rw [hx', hr']
    · subst hx'
      rcases List.rel_of_pairwise_cons h hr' with hk | hk
      · exact absurd h1 hk
      · exact absurd h2 hk
    · subst hr'
      rcases List.rel_of_pairwise_cons h hx' with hk | hk
      · exact absurd h1.symm hk
      · exact absurd h2.symm hk
    · exact ih (List.Pairwise.of_cons h) x hx' r hr' h1 h2

theorem translateRow_key (tr : List (String × String)) (conv : String → String) (x : IngRow) :
    (translateRow tr conv x).cocktail_id = x.cocktail_id ∧
    (translateRow tr conv x).position = x.position := ⟨rfl, rfl⟩

theorem translate_fold_aux (tr : List (String × String)) (conv : String → String) :
    ∀ (todo cur : List IngRow),
      (∀ r ∈ todo, ∀ x ∈ cur,
        x.cocktail_id = r.cocktail_id → x.position = r.position → x = r) →
      todo.Pairwise (fun a b => a.cocktail_id ≠ b.cocktail_id ∨ a.position ≠ b.position) →
      todo.foldl
          (fun rows r =>
            ruUpdate rows r.cocktail_id r.position
              (lookupD tr r.ingredient r.ingredient)
              (if r.measure = "" then "" else conv r.measure))
          cur
        = cur.map (fun x =>
            if ∃ r ∈ todo, x.cocktail_id = r.cocktail_id ∧ x.position = r.position then
              translateRow tr conv x
            else x) := by
  intro todo
  induction todo with
  | nil =>
    intro cur _ _
    simp
  | cons r todo ih =>
    intro cur hdisj hnd
    rw [List.foldl_cons]
    have hcur' : ruUpdate cur r.cocktail_id r.position
        (lookupD tr r.ingredient r.ingredient)
        (if r.measure = "" then "" else conv r.measure)
        = cur.map (fun x =>
            if x.cocktail_id = r.cocktail_id ∧ x.position = r.position then
              translateRow tr conv x
            else x) := by
      rw [ruUpdate]
      refine List.map_congr_left ?_
      intro x hx
      by_cases hk : x.cocktail_id = r.cocktail_id ∧ x.position = r.position
      · rw [if_pos hk, if_pos hk]
        have hxr : x = r := hdisj r (List.mem_cons_self r todo) x hx hk.1 hk.2
        subst hxr
        rw [translateRow]
      · rw [if_neg hk, if_neg hk]
    rw [hcur']
    have hdisj' : ∀ r' ∈ todo, ∀ x' ∈ cur.map (fun x =>
        if x.cocktail_id = r.cocktail_id ∧ x.position = r.position then
          translateRow tr conv x
        else x),
        x'.cocktail_id = r'.cocktail_id → x'.position = r'.position → x' = r' := by
      intro r' hr' x' hx' h1 h2
      obtain ⟨x, hx, hgx⟩ := List.mem_map.mp hx'
      by_cases hk : x.cocktail_id = r.cocktail_id ∧ x.position = r.position
      · rw [if_pos hk] at hgx
        have hkey1 : x'.cocktail_id = x.cocktail_id := by
          rw [← hgx]
          exact (translateRow_key tr conv x).1
        have hkey2 : x'.position = x.position := by
          rw [← hgx]
          exact (translateRow_key tr conv x).2
        rcases List.rel_of_pairwise_cons hnd hr' with hne | hne
        · exact absurd (by rw [← h1, hkey1, hk.1]) hne
        · exact absurd (by rw [← h2, hkey2, hk.2]) hne
      · rw [if_neg hk] at hgx
        rw [← hgx] at h1 h2 ⊢
        exact hdisj r' (List.mem_cons_of_mem r hr') x hx h1 h2
    rw [ih _ hdisj' (List.Pairwise.of_cons hnd), List.map_map]
    refine List.map_congr_left ?_
    intro x hx
    by_cases hk : x.cocktail_id = r.cocktail_id ∧ x.position = r.position
    · have hfalse : ¬ ∃ r' ∈ todo,
          (translateRow tr conv x).cocktail_id = r'.cocktail_id ∧
          (translateRow tr conv x).position = r'.position := by
        rintro ⟨r', hr', h1, h2⟩
        rcases List.rel_of_pairwise_cons hnd hr' with hne | hne
        · exact hne (by rw [← hk.1]; exact h1)
        · exact hne (by rw [← hk.2]; exact h2)
      have htrue : ∃ r' ∈ r :: todo,
          x.cocktail_id = r'.cocktail_id ∧ x.position = r'.position :=
        ⟨r, List.mem_cons_self r todo, hk⟩
      simp only [Function.comp_apply, if_pos hk, if_neg hfalse, if_pos htrue]
    · have hiff : (∃ r' ∈ r :: todo, x.cocktail_id = r'.cocktail_id ∧ x.position = r'.position)
          ↔ ∃ r' ∈ todo, x.cocktail_id = r'.cocktail_id ∧ x.position = r'.position := by
        constructor
        · rintro ⟨r', hr', hkey⟩
          rcases List.mem_cons.mp hr' with h' | h'
          · exact absurd (h' ▸ hkey) hk
          · exact ⟨r', h', hkey⟩
        · rintro ⟨r', hr', hkey⟩
          exact ⟨r', List.mem_cons_of_mem r hr', hkey⟩
      by_cases hex : ∃ r' ∈ todo, x.cocktail_id = r'.cocktail_id ∧ x.position = r'.position
      · simp only [Function.comp_apply, if_neg hk, if_pos hex, if_pos (hiff.mpr hex)]
      · simp only [Function.comp_apply, if_neg hk, if_neg hex,
          if_neg (fun h => hex (hiff.mp h))]

theorem translateUpdatePass_eq_map (tr : List (String × String)) (conv : String → String)
    (rows0 : List IngRow)
    (hkeys : rows0.Pairwise (fun a b => a.cocktail_id ≠ b.cocktail_id ∨ a.position ≠ b.position)) :
    translateUpdatePass tr conv rows0 = rows0.map (translateRow tr conv) := by
  rw [translateUpdatePass,
    translate_fold_aux tr conv rows0 rows0 (fun r hr x hx => eq_of_sameKey hkeys x hx r hr) hkeys]
  refine List.map_congr_left ?_
  intro x hx
  exact if_pos ⟨x, hx, rfl, rfl⟩

/-- C8 (amended): the stored line items of a fetched record carry
strictly increasing positions equal to the source record's slot indices
(within 1..15): each item comes from the non-blank slot at its position,
slots whose ingredient is null or blank contribute no item at their
index, and ascending position therefore reconstructs the source slot
order exactly.  The translation step joins on (cocktail_id, position):
when those keys are pairwise distinct (as the scraper guarantees), every
row receives the translation of its own ingredient and measure, even
when several rows of a cocktail share one ingredient name.  The
positions are not renumbered to a contiguous 1..N (see the
counterexample). -/
theorem claim_C8_position_keying (d : Drink) (tr : List (String × String))
    (conv : String → String) (rows0 : List IngRow)
    (hkeys : rows0.Pairwise (fun a b => a.cocktail_id ≠ b.cocktail_id ∨ a.position ≠ b.position)) :
    ((ingredientsOf d).map (fun it => it.position)).Pairwise (· < ·) ∧
    (∀ it ∈ ingredientsOf d, 1 ≤ it.position ∧ it.position ≤ 15 ∧
      ∃ ing meas, (d.slots.take 15)[it.position - 1]? = some (some ing, meas) ∧
        pyStrip ing ≠ "" ∧ it.ingredient = pyStrip ing ∧ it.measure = pyStrip (meas.getD "")) ∧
    (∀ (j : Nat) (sl : Option String × Option String), (d.slots.take 15)[j]? = some sl →
      (sl.1 = none ∨ ∀ s, sl.1 = some s → pyStrip s = "") →
      ∀ it ∈ ingredientsOf d, it.position ≠ j + 1) ∧
    translateUpdatePass tr conv rows0 = rows0.map (translateRow tr conv) := by
  refine ⟨?_, ?_, ?_, translateUpdatePass_eq_map tr conv rows0 hkeys⟩
  · rw [List.pairwise_map]
    exact collectIngredients_pos_pairwise _ 1
  · intro it hit
    have hb := collectIngredients_pos_bounds hit
    have hlen : (d.slots.take 15).length ≤ 15 := by
      rw [List.length_take]
      exact min_le_left _ _
    exact ⟨hb.1, by omega, collectIngredients_slot hit⟩
  · intro j sl hj hblank it hit
    have := collectIngredients_skips_blank hj hblank it hit
    rw [Nat.add_comm] at this
    exact this

/-- Drink used in the C8 witness and counterexample: slot 1 blank, slot
2 holding Gin, all later slots absent. -/
def dGap : Drink := { slots := [(none, none), (some "Gin", some "2 oz")] }

/-- Line-item rows used in the C8 witness: one cocktail with the same
ingredient name at two positions and different measures. -/
def c8rows : List IngRow :=
  [⟨"11007", "Water", "1 oz", 1, none, none⟩,
   ⟨"11007", "Water", "2 oz", 2, none, none⟩]

/-- Concrete instance of the amended C8: the update pass translates each
of two same-named rows from its own values, joined on position. -/
theorem claim_C8_position_keying_witness :
    c8rows.Pairwise (fun a b => a.cocktail_id ≠ b.cocktail_id ∨ a.position ≠ b.position) ∧
    ((ingredientsOf dGap).map (fun it => it.position)).Pairwise (· < ·) ∧
    translateUpdatePass [("Water", "Вода")] (fun s => s) c8rows =
      c8rows.map (translateRow [("Water", "Вода")] (fun s => s)) := by
  have h := claim_C8_position_keying dGap [("Water", "Вода")] (fun s => s) c8rows
    (by unfold c8rows; decide)
  exact ⟨by unfold c8rows; decide, h.1, h.2.2.2⟩

/-- Counterexample to C8 as stated: for a record whose only ingredient
sits in slot 2 (slot 1 blank), the single stored line item has position
2, so the positions are not the contiguous range 1..N claimed by the
specification — they are the original slot indices. -/
theorem claim_C8_counterexample : ¬ positionsContiguous dGap := by
  unfold positionsContiguous ingredientsOf dGap
  decide

/-! C3: the snapshot export and its re-parse. -/

theorem split2_no_head (a b : Char) :
    ∀ (s : List Char), (∀ x ∈ s, x ≠ a) → split2 a b s = [s] := by
  intro s
  induction s with
  | nil => intro _; rfl
  | cons c rest ih =>
    intro h
    cases rest with
    | nil => rfl
    | cons d rest2 =>
      have hc : c ≠ a := h c (List.mem_cons_self c _)
      simp only [split2]
      rw [if_neg (fun hk => hc hk.1)]
      rw [ih (fun x hx => h x (List.mem_cons_of_mem c hx))]
      rfl

theorem split2_append (a b : Char) :
    ∀ (p s : List Char), (∀ x ∈ p, x ≠ a) →
      split2 a b (p ++ a :: b :: s) = p :: split2 a b s := by
  intro p
  induction p with
  | nil =>
    intro s _
    simp only [List.nil_append, split2]
    simp
  | cons c p ih =>
    intro s h
    have hc : c ≠ a := h c (List.mem_cons_self c _)
    have hne : p ++ a :: b :: s ≠ [] := by simp
    obtain ⟨d, rest, hd⟩ := List.exists_cons_of_ne_nil hne
    rw [List.cons_append, hd]
    simp only [split2]
    rw [if_neg (fun hk => hc hk.1), ← hd,
      ih s (fun x hx => h x (List.mem_cons_of_mem c hx))]
    rfl

theorem split2_joinSep (a b : Char) :
    ∀ (parts : List (List Char)), parts ≠ [] →
      (∀ part ∈ parts, ∀ x ∈ part, x ≠ a) →
      split2 a b (joinSep [a, b] parts) = parts := by
  intro parts
  induction parts with
  | nil => intro h; exact absurd rfl h
  | cons p ps ih =>
    intro _ h
    cases ps with
    | nil =>
      rw [joinSep]
      exact split2_no_head a b p (h p (List.mem_cons_self p _))
    | cons q ps2 =>
      rw [joinSep]
      have : p ++ [a, b] ++ joinSep [a, b] (q :: ps2) =
          p ++ a :: b :: joinSep [a, b] (q :: ps2) := by simp
      rw [this, split2_append a b p _ (h p (List.mem_cons_self p _)),
        ih (by simp) (fun part hpart => h part (List.mem_cons_of_mem p hpart))]

theorem parseEntry_roundtrip (ing meas : String)
    (hi : ':' ∉ ing.data) (hm : ':' ∉ meas.data) :
    parseEntry (ing.data ++ [':', ':'] ++ meas.data) = (ing, meas) := by
  rw [parseEntry]
  have heq : ing.data ++ [':', ':'] ++ meas.data = ing.data ++ ':' :: ':' :: meas.data := by simp
  rw [heq, split2_append ':' ':' ing.data meas.data (fun x hx h => hi (h ▸ hx)),
    split2_no_head ':' ':' meas.data (fun x hx h => hm (h ▸ hx))]
  simp

theorem entry_ne_nil (r : IngRow) :
    (r.ingredient.data ++ [':', ':'] ++ r.measure.data) ≠ [] := by simp

theorem parse_join_roundtrip (rows : List IngRow) (hne : rows ≠ [])
    (hsep : ∀ r ∈ rows, '|' ∉ r.ingredient.data ∧ ':' ∉ r.ingredient.data ∧
      '|' ∉ r.measure.data ∧ ':' ∉ r.measure.data) :
    parseIngredientsList
        (joinSep ['|', '|'] (rows.map (fun r => r.ingredient.data ++ [':', ':'] ++ r.measure.data)))
      = rows.map (fun r => (r.ingredient, r.measure)) := by
  rw [parseIngredientsList]
  have hA : split2 '|' '|'
      (joinSep ['|', '|'] (rows.map (fun r => r.ingredient.data ++ [':', ':'] ++ r.measure.data)))
      = rows.map (fun r => r.ingredient.data ++ [':', ':'] ++ r.measure.data) := by
    refine split2_joinSep '|' '|' _ (fun h => hne (List.map_eq_nil.mp h)) ?_
    intro part hpart x hx
    obtain ⟨r, hr, hpart'⟩ := List.mem_map.mp hpart
    rw [← hpart'] at hx
    rcases List.mem_append.mp hx with hx' | hx'
    · rcases List.mem_append.mp hx' with hx'' | hx''
      · intro h
        exact (hsep r hr).1 (h ▸ hx'')
      · intro h
        subst h
        simp at hx''
    · intro h
      exact (hsep r hr).2.2.1 (h ▸ hx')
  rw [hA]
  have hfilter : (rows.map (fun r => r.ingredient.data ++ [':', ':'] ++ r.measure.data)).filter
      (fun i => ¬ i.isEmpty)
      = rows.map (fun r => r.ingredient.data ++ [':', ':'] ++ r.measure.data) := by
    refine List.filter_eq_self.mpr ?_
    intro part hpart
    obtain ⟨r, _, hpart'⟩ := List.mem_map.mp hpart
    rw [← hpart']
    simp
  rw [hfilter, List.map_map]
  refine List.map_congr_left ?_
  intro r hr
  have := parseEntry_roundtrip r.ingredient r.measure (hsep r hr).2.1 (hsep r hr).2.2.2
  simpa using this

theorem joinSep_entries_ne_nil (rows : List IngRow) (hne : rows ≠ []) :
    (joinSep ['|', '|']
      (rows.map (fun r => r.ingredient.data ++ [':', ':'] ++ r.measure.data))).isEmpty = false := by
  cases rows with
  | nil => exact absurd rfl hne
  | cons r rest =>
    cases rest with
    | nil =>
      rw [List.map_cons, List.map_nil, joinSep]
      simp
    | cons q rest2 =>
      rw [List.map_cons, List.map_cons, joinSep]
      simp

/-- C3 (amended): for every cocktail in the store that has at least one
line-item row, and whose rows' ingredient and measure texts avoid the
reserved exporter separators, the exported cocktails-JSON entry carries
an ingredients array whose (ingredient, measure) pairs are exactly that
cocktail's cocktail_ingredients rows in stored order — ascending
position order, since the rows are stored in ascending position order.
A cocktail with no line-item rows gets no ingredients key at all (see
the counterexample). -/
theorem claim_C3_snapshot_roundtrip (db : DB) (c : CocktailRow) (cid : String)
    (hc : c ∈ db.cocktails) (hid : c.id = some cid)
    (hrows : db.cocktail_ingredients.filter (fun r => r.cocktail_id = cid) ≠ [])
    (hsep : ∀ r ∈ db.cocktail_ingredients.filter (fun r => r.cocktail_id = cid),
      '|' ∉ r.ingredient.data ∧ ':' ∉ r.ingredient.data ∧
      '|' ∉ r.measure.data ∧ ':' ∉ r.measure.data)
    (hsorted : ((db.cocktail_ingredients.filter (fun r => r.cocktail_id = cid)).map
      (fun r => r.position)).Pairwise (· < ·)) :
    exportCocktail db c ∈ export_to_json db ∧
    (exportCocktail db c).ingredients =
      some ((db.cocktail_ingredients.filter (fun r => r.cocktail_id = cid)).map
        (fun r => (r.ingredient, r.measure))) := by
  refine ⟨List.mem_map.mpr ⟨c, hc, rfl⟩, ?_⟩
  have hrowsFor : rowsFor db c = db.cocktail_ingredients.filter (fun r => r.cocktail_id = cid) := by
    rw [rowsFor, hid]
  rw [exportCocktail]
  simp only [hrowsFor]
  obtain ⟨r0, rest, hr0⟩ := List.exists_cons_of_ne_nil hrows
  rw [hr0] at hsep ⊢
  simp only [ingredientsListOf]
  rw [joinSep_entries_ne_nil (r0 :: rest) (by simp)]
  simp only [Bool.false_eq_true, if_false]
  rw [parse_join_roundtrip (r0 :: rest) (by simp) hsep]

/-- Cocktail row used in the C3 witness. -/
def c3row : CocktailRow := { id := some "11007", name := some "Margarita" }

/-- Store used in the C3 witness: one cocktail with two line items in
ascending position order. -/
def c3db : DB :=
  { cocktails := [c3row]
    cocktail_ingredients :=
      [⟨"11007", "Tequila", "1 1/2 oz", 1, none, none⟩,
       ⟨"11007", "Triple sec", "1/2 oz", 2, none, none⟩] }

/-- Concrete instance of the amended C3: exporting and re-parsing
recovers the two (ingredient, measure) pairs in position order. -/
theorem claim_C3_snapshot_roundtrip_witness :
    (c3row ∈ c3db.cocktails ∧
      c3db.cocktail_ingredients.filter (fun r => r.cocktail_id = "11007") ≠ []) ∧
    (exportCocktail c3db c3row).ingredients =
      some ((c3db.cocktail_ingredients.filter (fun r => r.cocktail_id = "11007")).map
        (fun r => (r.ingredient, r.measure))) := by
  have h := claim_C3_snapshot_roundtrip c3db c3row "11007"
    (List.mem_singleton.mpr rfl) rfl (by decide) (by decide) (by decide)
  exact ⟨⟨List.mem_singleton.mpr rfl, by decide⟩, h.2⟩

/-- Store used in the C3 counterexample: one cocktail with no line-item
rows at all. -/
def c3dbEmpty : DB := { cocktails := [c3row] }

/-- Counterexample to C3 as stated: a cocktail with zero line-item rows
is exported with no ingredients key at all (the GROUP_CONCAT is NULL and
the exporter only sets the key for a truthy ingredients_list), so
re-parsing yields no ingredients array, not the empty array of pairs the
claim promises for every cocktail. -/
theorem claim_C3_counterexample : ¬ snapshotRoundTrip c3dbEmpty := by
  intro h
  have h1 := h c3row (List.mem_singleton.mpr rfl) "11007" rfl
  exact absurd h1 (by decide)
